import Mathlib

/-!
Verification of the offline-first data layer of the compu-caddy repository:
the IndexedDB wrapper `GolfDB` (object stores, conflict detection and
resolution, the sync queue) and the data-layer functions of the
`useGolfData` hook (`performSync`, `exportData`, `importData`,
`clearAllData`).

Modelling conventions, all taken from the JavaScript/TypeScript source:
- JS field values are modelled by `JVal`: JSON primitives plus arrays of
  primitives (the field values the data layer actually inspects — ids,
  timestamps, flags, and list-valued fields for the `combine` merge rule).
- A JS object is an association list `Obj` of field-name/value pairs in
  insertion order, matching JS property-order semantics.  An assignment of
  `undefined` is modelled as removing the field, which is observationally
  equal for field reads and for `JSON.stringify`.
- IndexedDB object stores are lists of objects; `add`/`put`/`get`/`delete`
  follow the IndexedDB contract (key extracted from the `id` keyPath,
  `ConstraintError` on duplicate `add`, `DataError` on a missing or invalid
  key).  The model fixes one domain object store per `GolfDB` state; the
  `storeName` argument of the conflict methods is carried as data.
- `Date.now()` and `Math.random()` are passed in as explicit parameters.
-/

/-- JSON primitive values. -/
inductive JPrim where
  | pnull : JPrim
  | pbool : Bool → JPrim
  | pnum : Int → JPrim
  | pstr : String → JPrim
deriving DecidableEq, Repr

/-- A JS field value: a primitive or an array of primitives. -/
inductive JVal where
  | prim : JPrim → JVal
  | arr : List JPrim → JVal
deriving DecidableEq, Repr

/-- A JS object: fields in insertion order. -/
abbrev Obj := List (String × JVal)

/-- Read a field (`o[k]`); `none` models `undefined`. -/
def getField (o : Obj) (k : String) : Option JVal :=
  (o.find? (fun p => p.1 == k)).map (·.2)

/-- Assign a field (`o[k] = v`): update the existing slot in place or append. -/
def setField : Obj → String → JVal → Obj
  | [], k, v => [(k, v)]
  | (k', v') :: rest, k, v =>
      if k' = k then (k, v) :: rest else (k', v') :: setField rest k v

/-- Remove a field; used to model assigning `undefined` (observationally
equal to an absent field for reads and serialization). -/
def eraseField : Obj → String → Obj
  | [], _ => []
  | (k', v') :: rest, k =>
      if k' = k then eraseField rest k else (k', v') :: eraseField rest k

/-- `o[k] = v` where `v` may be `undefined` (modelled as removal). -/
def assignField (o : Obj) (k : String) : Option JVal → Obj
  | some v => setField o k v
  | none => eraseField o k

/-- JS truthiness of a possibly-absent field value
(`undefined`, `null`, `false`, `0` and `""` are falsy). -/
def truthy : Option JVal → Bool
  | none => false
  | some (JVal.prim JPrim.pnull) => false
  | some (JVal.prim (JPrim.pbool b)) => b
  | some (JVal.prim (JPrim.pnum n)) => n != 0
  | some (JVal.prim (JPrim.pstr s)) => s != ""
  | some (JVal.arr _) => true

/-- JS `>` on two values: numbers compare numerically, two strings compare
lexicographically; the remaining coercion cases (never exercised by the
integer timestamps this comparison is applied to) compare as false, like a
comparison involving NaN. -/
def jvalGt : JVal → JVal → Bool
  | JVal.prim (JPrim.pnum a), JVal.prim (JPrim.pnum b) => b < a
  | JVal.prim (JPrim.pstr a), JVal.prim (JPrim.pstr b) => decide (b < a)
  | _, _ => false

/-- JS `a > b` on possibly-absent operands (absent operands compare false). -/
def jsGt : Option JVal → Option JVal → Bool
  | some a, some b => jvalGt a b
  | _, _ => false

/-- Errors of the store layer.  `ConstraintError` is the IndexedDB error for
a duplicate key (the spec's `DuplicateKey`); `DataError` for a missing or
invalid key; `ValidationError` for a rejected import payload. -/
inductive DBError where
  | ConstraintError : DBError
  | DataError : DBError
  | ValidationError : DBError
deriving DecidableEq, Repr

/-- The key IndexedDB extracts from a record via the `id` keyPath. -/
def entKey (o : Obj) : Option JVal := getField o "id"

/-- Whether a value is a valid IndexedDB key (number, string, or an array
of numbers and strings). -/
def isValidKey : JVal → Bool
  | JVal.prim (JPrim.pnum _) => true
  | JVal.prim (JPrim.pstr _) => true
  | JVal.arr xs => xs.all (fun p => match p with
      | JPrim.pnum _ => true
      | JPrim.pstr _ => true
      | _ => false)
  | _ => false

namespace GolfDB

/-- `store.get(key)`: the record whose extracted key equals `key`. -/
def getByKey (l : List Obj) (k : JVal) : Option Obj :=
  l.find? (fun x => entKey x == some k)

/-- Insert-or-replace by key (the mutation performed by `store.put`). -/
def putList (l : List Obj) (k : JVal) (e : Obj) : List Obj :=
  if l.any (fun x => entKey x == some k) then
    l.map (fun x => if entKey x == some k then e else x)
  else l ++ [e]

/-- `GolfDB.put`: insert-or-replace; `DataError` when the record has no
valid `id` key. -/
def put (l : List Obj) (e : Obj) : Except DBError (List Obj) :=
  match entKey e with
  | some k => if isValidKey k then Except.ok (putList l k e) else Except.error DBError.DataError
  | none => Except.error DBError.DataError

/-- `GolfDB.add`: insert; `ConstraintError` when the key already exists. -/
def add (l : List Obj) (e : Obj) : Except DBError (List Obj) :=
  match entKey e with
  | some k =>
      if isValidKey k then
        if l.any (fun x => entKey x == some k) then Except.error DBError.ConstraintError
        else Except.ok (l ++ [e])
      else Except.error DBError.DataError
  | none => Except.error DBError.DataError

/-- `GolfDB.delete`: remove the record with the given key (idempotent). -/
def deleteObj (l : List Obj) (k : JVal) : List Obj :=
  l.filter (fun x => !(entKey x == some k))

/-- `GolfDB.getAll`: every record of the store. -/
def getAllStore (l : List Obj) : List Obj := l

end GolfDB

/-- The conflict classifications produced by `GolfDB.detectConflicts`. -/
inductive ConflictType where
  | server_newer : ConflictType
  | local_newer : ConflictType
  | content_conflict : ConflictType
  | server_only : ConflictType
  | local_only : ConflictType
deriving DecidableEq, Repr

/-- The `{ type, local, remote }` objects pushed by `detectConflicts` and
consumed by `resolveConflict`. -/
structure ConflictPair where
  ctype : ConflictType
  clocal : Option Obj
  cremote : Option Obj
deriving DecidableEq, Repr

/-- A record of the `conflicts` object store (built by `storeConflict`). -/
structure StoredConflict where
  id : String
  storeName : String
  conflict : ConflictPair
  timestamp : Nat
deriving DecidableEq, Repr

/-- A record of the `syncQueue` object store (built by `addToSyncQueue`). -/
structure SyncItem where
  id : String
  storeName : String
  operation : String
  data : Obj
  timestamp : Nat
  retries : Nat
  status : String
deriving DecidableEq, Repr

/-- The resolution strategies of `GolfDB.resolveConflict`. -/
inductive Strategy where
  | use_local : Strategy
  | use_remote : Strategy
  | merge : Strategy
  | manual : Strategy
deriving DecidableEq, Repr

/-- The per-field rules of `GolfDB.mergeData`. -/
inductive MergeRule where
  | use_remote : MergeRule
  | use_local : MergeRule
  | combine : MergeRule
  | latest : MergeRule
deriving DecidableEq, Repr

/-- The `resolution` argument of `resolveConflict`
(`{ strategy, mergeRules }`). -/
structure Resolution where
  strategy : Strategy
  mergeRules : List (String × MergeRule)
deriving DecidableEq, Repr

/-- One `GolfDB` database: the domain object store the conflict under
consideration lives in, plus the two internal stores. -/
structure DBState where
  store : List Obj
  conflicts : List StoredConflict
  syncQueue : List SyncItem
deriving DecidableEq, Repr

section KeyedOps

variable {α : Type}

/-- `store.get(k)` on a store of structured records keyed by `key`. -/
def findByKey (key : α → String) (l : List α) (k : String) : Option α :=
  l.find? (fun x => key x == k)

/-- `store.put(e)` on a store of structured records (insert-or-replace). -/
def putByKey (key : α → String) (l : List α) (e : α) : List α :=
  if l.any (fun x => key x == key e) then
    l.map (fun x => if key x == key e then e else x)
  else l ++ [e]

/-- `store.add(e)` on a store of structured records
(`ConstraintError` on an existing key). -/
def addByKey (key : α → String) (l : List α) (e : α) : Except DBError (List α) :=
  if l.any (fun x => key x == key e) then Except.error DBError.ConstraintError
  else Except.ok (l ++ [e])

/-- `store.delete(k)` on a store of structured records. -/
def deleteByKey (key : α → String) (l : List α) (k : String) : List α :=
  l.filter (fun x => !(key x == k))

end KeyedOps

namespace GolfDB

/-- The per-pair comparison at the heart of `detectConflicts` (the body of
its main loop, with the absent-counterpart cases of both loops): classify
an optional local and an optional remote entity.  The `if` on the two
`lastModified` fields is the JS truthiness test
`remoteItem.lastModified && localItem.lastModified`. -/
def classify (localItem remoteItem : Option Obj) : Option ConflictType :=
  match localItem, remoteItem with
  | some l, some r =>
      if truthy (getField r "lastModified") && truthy (getField l "lastModified") then
        if jsGt (getField r "lastModified") (getField l "lastModified") then
          some ConflictType.server_newer
        else if jsGt (getField l "lastModified") (getField r "lastModified") then
          some ConflictType.local_newer
        else if r ≠ l then some ConflictType.content_conflict
        else none
      else if r ≠ l then some ConflictType.content_conflict
      else none
  | none, some _ => some ConflictType.server_only
  | some _, none => some ConflictType.local_only
  | none, none => none

/-- `GolfDB.detectConflicts`: compare every remote item against the local
item with the same `id` (JS `===` on the `id` fields), then collect the
local-only items. -/
def detectConflicts (localData remoteData : List Obj) : List ConflictPair :=
  (remoteData.filterMap (fun remoteItem =>
    match localData.find? (fun item => getField item "id" == getField remoteItem "id") with
    | some localItem =>
        (classify (some localItem) (some remoteItem)).map
          (fun t => ⟨t, some localItem, some remoteItem⟩)
    | none => some ⟨ConflictType.server_only, none, some remoteItem⟩))
  ++ localData.filterMap (fun localItem =>
    if remoteData.any (fun item => getField item "id" == getField localItem "id") then none
    else some ⟨ConflictType.local_only, some localItem, none⟩)

/-- One iteration of the `GolfDB.mergeData` rule loop.  `combine`
concatenates two array-valued fields and removes duplicates
(`[...new Set([...])]`, which keeps first occurrences); on any non-array
side it leaves the accumulator untouched.  `latest` takes the remote value
unconditionally (the source comments "Assume remote is newer"). -/
def mergeStep (locl remot : Obj) (merged : Obj) (fr : String × MergeRule) : Obj :=
  match fr.2 with
  | MergeRule.use_remote => assignField merged fr.1 (getField remot fr.1)
  | MergeRule.use_local => merged
  | MergeRule.combine =>
      match getField locl fr.1, getField remot fr.1 with
      | some (JVal.arr a), some (JVal.arr b) =>
          assignField merged fr.1 (some (JVal.arr ((a ++ b).eraseDups)))
      | _, _ => merged
  | MergeRule.latest => assignField merged fr.1 (getField remot fr.1)

/-- `GolfDB.mergeData`: start from a copy of `local`
(`const merged = {...local}`) and apply the caller-supplied per-field
rules in order. -/
def mergeData (locl remot : Obj) (mergeRules : List (String × MergeRule)) : Obj :=
  mergeRules.foldl (mergeStep locl remot) locl

/-- The spread of a possibly-`null` entity (`{...local}`): `null` spreads
to the empty object. -/
def objOf : Option Obj → Obj
  | some o => o
  | none => []

/-- `GolfDB.storeConflict`: persist an unresolved pair in the `conflicts`
store under the id `conflict-<Date.now()>`; a failing `add` is caught and
swallowed. -/
def storeConflict (storeName : String) (conflict : ConflictPair) (now : Nat) (st : DBState) :
    DBState :=
  let conflictData : StoredConflict :=
    ⟨"conflict-" ++ toString now, storeName, conflict, now⟩
  match addByKey StoredConflict.id st.conflicts conflictData with
  | Except.ok l => { st with conflicts := l }
  | Except.error _ => st

/-- `GolfDB.resolveConflict`: apply one resolution strategy.
`use_local` writes `{...local, lastModified: Date.now(), synced: false}`;
`use_remote` writes `{...remote, synced: true}`; `merge` writes the merged
entity with the same stamp as `use_local`; `manual` stores the conflict.
The `storeName` argument selects the domain store in the source and is
carried as data here.  A `put` of an entity without a valid `id` key
surfaces the underlying `DataError`. -/
def resolveConflict (storeName : String) (conflict : ConflictPair) (resolution : Resolution)
    (now : Nat) (st : DBState) : Except DBError DBState :=
  match resolution.strategy with
  | Strategy.use_local =>
      (put st.store
        (setField (setField (objOf conflict.clocal) "lastModified" (JVal.prim (JPrim.pnum now)))
          "synced" (JVal.prim (JPrim.pbool false)))).map
        (fun s => { st with store := s })
  | Strategy.use_remote =>
      (put st.store
        (setField (objOf conflict.cremote) "synced" (JVal.prim (JPrim.pbool true)))).map
        (fun s => { st with store := s })
  | Strategy.merge =>
      let merged := mergeData (objOf conflict.clocal) (objOf conflict.cremote)
        resolution.mergeRules
      (put st.store
        (setField (setField merged "lastModified" (JVal.prim (JPrim.pnum now)))
          "synced" (JVal.prim (JPrim.pbool false)))).map
        (fun s => { st with store := s })
  | Strategy.manual => Except.ok (storeConflict storeName conflict now st)

/-- `GolfDB.getPendingConflicts`: all records of the `conflicts` store. -/
def getPendingConflicts (st : DBState) : List StoredConflict := st.conflicts

/-- `GolfDB.resolveStoredConflict`: look the stored conflict up by id,
resolve it, then delete the stored record. -/
def resolveStoredConflict (conflictId : String) (resolution : Resolution) (now : Nat)
    (st : DBState) : Except DBError DBState :=
  match findByKey StoredConflict.id st.conflicts conflictId with
  | none => Except.ok st
  | some c =>
      (resolveConflict c.storeName c.conflict resolution now st).map
        (fun st' => { st' with conflicts := deleteByKey StoredConflict.id st'.conflicts conflictId })

/-- `GolfDB.addToSyncQueue`: append a fresh `pending` item with id
`sync-<Date.now()>-<Math.random()>`; a failing `add` is caught and
swallowed. -/
def addToSyncQueue (storeName operation : String) (payload : Obj) (now : Nat) (rnd : String)
    (st : DBState) : DBState :=
  let syncItem : SyncItem :=
    ⟨"sync-" ++ toString now ++ "-" ++ rnd, storeName, operation, payload, now, 0, "pending"⟩
  match addByKey SyncItem.id st.syncQueue syncItem with
  | Except.ok l => { st with syncQueue := l }
  | Except.error _ => st

/-- `GolfDB.getSyncQueue`: `getAll` on the `syncQueue` store — every item,
with no filtering by status. -/
def getSyncQueue (st : DBState) : List SyncItem := st.syncQueue

/-- `GolfDB.markSyncItemComplete`: fetch by id and set `status = completed`. -/
def markSyncItemComplete (syncId : String) (st : DBState) : DBState :=
  match findByKey SyncItem.id st.syncQueue syncId with
  | none => st
  | some item =>
      { st with syncQueue := putByKey SyncItem.id st.syncQueue { item with status := "completed" } }

/-- `GolfDB.retrySyncItem`: fetch by id, increment `retries` and reset
`status = pending`. -/
def retrySyncItem (syncId : String) (st : DBState) : DBState :=
  match findByKey SyncItem.id st.syncQueue syncId with
  | none => st
  | some item =>
      let retried : SyncItem := { item with retries := item.retries + 1, status := "pending" }
      { st with syncQueue := putByKey SyncItem.id st.syncQueue retried }

end GolfDB

/-! ### The Synchronization Coordinator (`performSync` in `useGolfData`)

The remote endpoint is an external collaborator: `processSyncItem` in the
source dispatches on the item's operation and performs the remote push.
Its success or failure is abstracted as an oracle `pushOk : SyncItem → Bool`
(the `try`/`catch` around `processSyncItem` in the loop).
-/

/-- The `syncStatus` React state: `'idle' | 'syncing' | 'error'`. -/
inductive SyncStatus where
  | idle : SyncStatus
  | syncing : SyncStatus
  | error : SyncStatus
deriving DecidableEq, Repr

/-- One iteration of the `performSync` loop: on a successful push mark the
item complete, on a failed push retry it and continue. -/
def stepItem (pushOk : SyncItem → Bool) (st : DBState) (item : SyncItem) : DBState :=
  if pushOk item then GolfDB.markSyncItemComplete item.id st
  else GolfDB.retrySyncItem item.id st

/-- The queue-processing loop of `performSync`: iterate over the snapshot
returned by `getSyncQueue` (every item, any status). -/
def performSyncPass (pushOk : SyncItem → Bool) (st : DBState) : DBState :=
  (GolfDB.getSyncQueue st).foldl (stepItem pushOk) st

/-- What one pass does to a single queue item (specification-side
description used to characterise `performSyncPass`). -/
def pushOutcome (pushOk : SyncItem → Bool) (item : SyncItem) : SyncItem :=
  if pushOk item then { item with status := "completed" }
  else { item with retries := item.retries + 1, status := "pending" }

/-- `performSync`: guarded only by `!db || !isOnline`; it never consults
the current `syncStatus`.  It sets `syncStatus` to `'syncing'` for the
duration of the pass and to `'idle'` on completion (the `'error'` branch is
reached only when a store operation itself throws, which the store model
does not).  `checkForConflicts` only reads the `conflicts` store into React
state and mutates nothing. -/
def performSync (pushOk : SyncItem → Bool) (dbReady online : Bool) (status : SyncStatus)
    (st : DBState) : SyncStatus × DBState :=
  if !dbReady || !online then (status, st)
  else (SyncStatus.idle, performSyncPass pushOk st)

/-! ### The backup data layer of `useGolfData`
(`exportData` / `importData` / `clearAllData`) -/

/-- The three domain collections handled by export/import/clear. -/
structure AppState where
  courses : List Obj
  rounds : List Obj
  holeScores : List Obj
deriving DecidableEq, Repr

/-- `exportData`: serialize the three collections (the `exportDate`
metadata field is not read back by `importData` and is omitted). -/
def exportData (st : AppState) : AppState :=
  ⟨st.courses, st.rounds, st.holeScores⟩

/-- `importData` validation: `!course.id || !course.name` throws. -/
def validCourse (c : Obj) : Bool :=
  truthy (getField c "id") && truthy (getField c "name")

/-- `importData` validation:
`!round.id || !round.courseId || typeof round.totalScore !== 'number'`. -/
def validRound (r : Obj) : Bool :=
  truthy (getField r "id") && truthy (getField r "courseId") &&
    (match getField r "totalScore" with
     | some (JVal.prim (JPrim.pnum _)) => true
     | _ => false)

/-- `importData` validation:
`!hole.id || !hole.roundId || typeof hole.score !== 'number'`. -/
def validHoleScore (h : Obj) : Bool :=
  truthy (getField h "id") && truthy (getField h "roundId") &&
    (match getField h "score" with
     | some (JVal.prim (JPrim.pnum _)) => true
     | _ => false)

/-- `importData`: validate every entity of the parsed backup, then `put`
each one; the validation loops all run before the first `put`. -/
def importData (backup : AppState) (st : AppState) : Except DBError AppState :=
  if backup.courses.all validCourse && backup.rounds.all validRound &&
      backup.holeScores.all validHoleScore then do
    let cs ← backup.courses.foldlM GolfDB.put st.courses
    let rs ← backup.rounds.foldlM GolfDB.put st.rounds
    let hs ← backup.holeScores.foldlM GolfDB.put st.holeScores
    Except.ok ⟨cs, rs, hs⟩
  else Except.error DBError.ValidationError

/-- The per-collection loop of `clearAllData`: `getAll` the collection and
delete each snapshot entity by its `id` (an absent or invalid `id` makes
the IndexedDB `delete` throw `DataError`). -/
def clearStore (l : List Obj) : Except DBError (List Obj) :=
  l.foldlM (fun cur x =>
    match entKey x with
    | some k =>
        if isValidKey k then Except.ok (GolfDB.deleteObj cur k)
        else Except.error DBError.DataError
    | none => Except.error DBError.DataError) l

/-- `clearAllData`: clear the three domain collections. -/
def clearAllData (st : AppState) : Except DBError AppState := do
  let cs ← clearStore st.courses
  let rs ← clearStore st.rounds
  let hs ← clearStore st.holeScores
  Except.ok ⟨cs, rs, hs⟩

/-- The round-trip of the spec's testable property: export every
collection, clear all collections, re-import the export. -/
def roundTrip (st : AppState) : Except DBError AppState := do
  let backup := exportData st
  let cleared ← clearAllData st
  importData backup cleared

/-! ### Concrete instances used by witnesses and counterexamples -/

/-- A local entity with timestamp 100. -/
def c1Local : Obj :=
  [("id", JVal.prim (JPrim.pstr "e1")), ("lastModified", JVal.prim (JPrim.pnum 100))]

/-- A remote entity with the same id and timestamp 200. -/
def c1Remote : Obj :=
  [("id", JVal.prim (JPrim.pstr "e1")), ("lastModified", JVal.prim (JPrim.pnum 200))]

/-- A server-newer conflict whose local and remote entities are both present. -/
def c1Pair : ConflictPair := ⟨ConflictType.server_newer, some c1Local, some c1Remote⟩

/-- A database holding the local entity, no conflicts, an empty queue. -/
def c1St : DBState := ⟨[c1Local], [], []⟩

/-- A local entity whose `lastModified` is present but `0` (falsy in JS). -/
def c2Local : Obj :=
  [("id", JVal.prim (JPrim.pstr "a")), ("lastModified", JVal.prim (JPrim.pnum 0))]

/-- A remote entity with the same id and `lastModified = 5`. -/
def c2Remote : Obj :=
  [("id", JVal.prim (JPrim.pstr "a")), ("lastModified", JVal.prim (JPrim.pnum 5))]

/-- A local entity with nonzero timestamp 100 for the classification witness. -/
def c2wLocal : Obj :=
  [("id", JVal.prim (JPrim.pstr "w")), ("lastModified", JVal.prim (JPrim.pnum 100))]

/-- A remote entity with nonzero timestamp 200 for the classification witness. -/
def c2wRemote : Obj :=
  [("id", JVal.prim (JPrim.pstr "w")), ("lastModified", JVal.prim (JPrim.pnum 200))]

/-- A queue item that has already been marked `completed`. -/
def c3Item : SyncItem := ⟨"sync-1-a", "rounds", "put", [], 1, 0, "completed"⟩

/-- A database whose sync queue holds only the completed item. -/
def c3St : DBState := ⟨[], [], [c3Item]⟩

/-- A pending queue item together with a second one, for the pass witness. -/
def c3wItem1 : SyncItem := ⟨"sync-1-a", "rounds", "put", [], 1, 0, "pending"⟩

/-- A second pending queue item with a later id and timestamp. -/
def c3wItem2 : SyncItem := ⟨"sync-2-b", "courses", "put", [], 2, 0, "pending"⟩

/-- A database with two pending queue items. -/
def c3wSt : DBState := ⟨[], [], [c3wItem1, c3wItem2]⟩

/-- The push oracle that succeeds exactly on `sync-2-b`. -/
def failFirstPush (i : SyncItem) : Bool := i.id == "sync-2-b"

/-- A pending queue item used by the no-single-flight counterexample. -/
def c4Item : SyncItem := ⟨"sync-1-a", "rounds", "put", [], 1, 0, "pending"⟩

/-- A database whose sync queue holds one pending item. -/
def c4St : DBState := ⟨[], [], [c4Item]⟩

/-- The same database after the pass marked the item complete. -/
def c4After : DBState := ⟨[], [], [{ c4Item with status := "completed" }]⟩

/-- The stored-conflict local entity. -/
def c5Local : Obj :=
  [("id", JVal.prim (JPrim.pstr "course-1")), ("lastModified", JVal.prim (JPrim.pnum 100)),
   ("par", JVal.prim (JPrim.pnum 72))]

/-- The stored-conflict remote entity (newer, different `par`). -/
def c5Remote : Obj :=
  [("id", JVal.prim (JPrim.pstr "course-1")), ("lastModified", JVal.prim (JPrim.pnum 200)),
   ("par", JVal.prim (JPrim.pnum 70))]

/-- The stored conflict pair. -/
def c5Pair : ConflictPair := ⟨ConflictType.server_newer, some c5Local, some c5Remote⟩

/-- The conflict record as persisted in the `conflicts` store. -/
def c5Rec : StoredConflict := ⟨"conflict-100", "courses", c5Pair, 100⟩

/-- A database holding the local entity and the stored conflict. -/
def c5St : DBState := ⟨[c5Local], [c5Rec], []⟩

/-- A stored pair with a `null` local side, as `detectConflicts` produces
for a server-only item. -/
def c5BadPair : ConflictPair := ⟨ConflictType.server_only, none, some c5Remote⟩

/-- A conflict record persisting the null-sided pair. -/
def c5BadRec : StoredConflict := ⟨"conflict-7", "courses", c5BadPair, 7⟩

/-- A database holding only the null-sided conflict record. -/
def c5BadSt : DBState := ⟨[], [c5BadRec], []⟩

/-- An entity for the put-idempotence witness. -/
def c7Ent : Obj := [("id", JVal.prim (JPrim.pstr "k")), ("par", JVal.prim (JPrim.pnum 72))]

/-- First entity sharing the duplicate id. -/
def c8Ent1 : Obj := [("id", JVal.prim (JPrim.pstr "k")), ("v", JVal.prim (JPrim.pnum 1))]

/-- Second, different entity with the same id. -/
def c8Ent2 : Obj := [("id", JVal.prim (JPrim.pstr "k")), ("v", JVal.prim (JPrim.pnum 2))]

/-- A course that the store accepts but `importData` rejects (empty name). -/
def c9BadCourse : Obj :=
  [("id", JVal.prim (JPrim.pstr "c1")), ("name", JVal.prim (JPrim.pstr ""))]

/-- An app state holding only the bad course. -/
def c9BadSt : AppState := ⟨[c9BadCourse], [], []⟩

/-- A fully valid app state for the round-trip witness. -/
def c9GoodSt : AppState :=
  ⟨[[("id", JVal.prim (JPrim.pstr "c1")), ("name", JVal.prim (JPrim.pstr "Sample"))]],
   [[("id", JVal.prim (JPrim.pstr "r1")), ("courseId", JVal.prim (JPrim.pstr "c1")),
     ("totalScore", JVal.prim (JPrim.pnum 80))]],
   [[("id", JVal.prim (JPrim.pstr "h1")), ("roundId", JVal.prim (JPrim.pstr "r1")),
     ("score", JVal.prim (JPrim.pnum 4))]]⟩

/-- A local entity with list-valued and scalar fields for the merge witness. -/
def c10Local : Obj :=
  [("id", JVal.prim (JPrim.pstr "m")), ("a", JVal.prim (JPrim.pnum 1)),
   ("tags", JVal.arr [JPrim.pstr "x"]), ("b", JVal.prim (JPrim.pnum 2))]

/-- The matching remote entity. -/
def c10Remote : Obj :=
  [("id", JVal.prim (JPrim.pstr "m")), ("a", JVal.prim (JPrim.pnum 9)),
   ("tags", JVal.prim (JPrim.pstr "not-an-array")), ("b", JVal.prim (JPrim.pnum 3))]

/-- A rule set with a `latest` rule on `b` and a `combine` rule on `tags`. -/
def c10Rules : List (String × MergeRule) :=
  [("b", MergeRule.latest), ("tags", MergeRule.combine)]

/-- Whether both entities hold an array under the field
(`Array.isArray(local[field]) && Array.isArray(remote[field])`). -/
def bothArrays (locl remot : Obj) (f : String) : Bool :=
  match getField locl f, getField remot f with
  | some (JVal.arr _), some (JVal.arr _) => true
  | _, _ => false

/-- Whether a record carries a valid IndexedDB key under its `id` keyPath
(the store invariant every persisted record satisfies). -/
def goodKey (x : Obj) : Bool :=
  match entKey x with
  | some k => isValidKey k
  | none => false

/-- Every entity of the collection carries a valid IndexedDB key. -/
def wellKeyed (l : List Obj) : Bool := l.all goodKey

section ObjLemmas

theorem getField_setField_self (o : Obj) (k : String) (v : JVal) :
    getField (setField o k v) k = some v := by
  induction o with
  | nil => simp [setField, getField, List.find?]
  | cons p rest ih =>
      by_cases h : p.1 = k
      · simp [setField, h, getField, List.find?]
      · simpa [setField, h, getField, List.find?] using ih

theorem getField_setField_ne (o : Obj) (k k' : String) (v : JVal) (h : k' ≠ k) :
    getField (setField o k v) k' = getField o k' := by
  have hkk : (k == k') = false := beq_eq_false_iff_ne.mpr (Ne.symm h)
  induction o with
  | nil => simp [setField, getField, List.find?, hkk]
  | cons p rest ih =>
      obtain ⟨pk, pv⟩ := p
      by_cases hp : pk = k
      · subst hp
        simp [setField, getField, List.find?, hkk]
      · by_cases hp' : pk = k'
        · subst hp'
          simp [setField, hp, getField, List.find?]
        · have hpk' : (pk == k') = false := beq_eq_false_iff_ne.mpr hp'
          simpa [setField, hp, getField, List.find?, hpk'] using ih

theorem getField_eraseField_self (o : Obj) (k : String) :
    getField (eraseField o k) k = none := by
  induction o with
  | nil => simp [eraseField, getField, List.find?]
  | cons p rest ih =>
      obtain ⟨pk, pv⟩ := p
      by_cases hp : pk = k
      · simpa [eraseField, hp] using ih
      · have hpk : (pk == k) = false := beq_eq_false_iff_ne.mpr hp
        simpa [eraseField, hp, getField, List.find?, hpk] using ih

theorem getField_eraseField_ne (o : Obj) (k k' : String) (h : k' ≠ k) :
    getField (eraseField o k) k' = getField o k' := by
  induction o with
  | nil => simp [eraseField]
  | cons p rest ih =>
      obtain ⟨pk, pv⟩ := p
      by_cases hp : pk = k
      · subst hp
        have hpk' : (pk == k') = false := beq_eq_false_iff_ne.mpr (fun hh => h hh.symm)
        simpa [eraseField, getField, List.find?, hpk'] using ih
      · by_cases hp' : pk = k'
        · subst hp'
          simp [eraseField, hp, getField, List.find?]
        · have hpk' : (pk == k') = false := beq_eq_false_iff_ne.mpr hp'
          simpa [eraseField, hp, getField, List.find?, hpk'] using ih

theorem getField_assignField_self (o : Obj) (k : String) (v : Option JVal) :
    getField (assignField o k v) k = v := by
  cases v with
  | some w => simpa [assignField] using getField_setField_self o k w
  | none => simpa [assignField] using getField_eraseField_self o k

theorem getField_assignField_ne (o : Obj) (k k' : String) (v : Option JVal) (h : k' ≠ k) :
    getField (assignField o k v) k' = getField o k' := by
  cases v with
  | some w => simpa [assignField] using getField_setField_ne o k k' w h
  | none => simpa [assignField] using getField_eraseField_ne o k k' h

end ObjLemmas

section ListHelpers

variable {α : Type}

theorem find?_map_ite (q : α → Bool) (e : α) (he : q e = true) :
    ∀ l : List α, l.any q = true →
      (l.map (fun x => if q x then e else x)).find? q = some e := by
  intro l hl
  induction l with
  | nil => simp at hl
  | cons x xs ih =>
      by_cases hx : q x = true
      · simp [List.map_cons, hx, List.find?, he]
      · have hx' : q x = false := by simpa using hx
        have hxs : xs.any q = true := by simpa [List.any_cons, hx'] using hl
        simpa [List.map_cons, hx', List.find?] using ih hxs

theorem find?_append_first (q : α → Bool) (l₂ : List α) :
    ∀ l₁ : List α, l₁.any q = false → (l₁ ++ l₂).find? q = l₂.find? q := by
  intro l₁ h
  induction l₁ with
  | nil => rfl
  | cons x xs ih =>
      have hx : q x = false := by
        cases hq : q x
        · rfl
        · exfalso; simp [List.any_cons, hq] at h
      have hxs : xs.any q = false := by simpa [List.any_cons, hx] using h
      simpa [List.cons_append, List.find?, hx] using ih hxs

theorem map_ite_id (q : α → Bool) (e : α) :
    ∀ l : List α, l.any q = false → l.map (fun x => if q x then e else x) = l := by
  intro l h
  induction l with
  | nil => rfl
  | cons x xs ih =>
      have hx : q x = false := by
        cases hq : q x
        · rfl
        · exfalso; simp [List.any_cons, hq] at h
      have hxs : xs.any q = false := by simpa [List.any_cons, hx] using h
      simp [List.map_cons, hx, ih hxs]

theorem map_ite_twice (q : α → Bool) (e : α) (he : q e = true) :
    ∀ l : List α,
      (l.map (fun x => if q x then e else x)).map (fun x => if q x then e else x)
        = l.map (fun x => if q x then e else x) := by
  intro l
  induction l with
  | nil => rfl
  | cons x xs ih =>
      by_cases hx : q x = true
      · simp [List.map_cons, hx, he, ih]
      · have hx' : q x = false := by simpa using hx
        simp [List.map_cons, hx', ih]

theorem findByKey_eq_some_key {key : α → String} {l : List α} {k : String} {x : α}
    (h : findByKey key l k = some x) : key x = k ∧ x ∈ l := by
  have h1 := List.find?_some h
  have h2 := List.mem_of_find?_eq_some h
  exact ⟨by simpa using h1, h2⟩

theorem findByKey_deleteByKey_self (key : α → String) (l : List α) (k : String) :
    findByKey key (deleteByKey key l k) k = none := by
  unfold findByKey deleteByKey
  cases hf : List.find? (fun x => key x == k) (List.filter (fun x => !(key x == k)) l) with
  | none => rfl
  | some x =>
      exfalso
      have hp := List.find?_some hf
      have hm := List.mem_of_find?_eq_some hf
      have hfilt := List.of_mem_filter hm
      simp at hp hfilt
      exact hfilt hp

theorem mem_deleteByKey (key : α → String) {l : List α} {x : α} (k : String)
    (hx : x ∈ l) (hk : key x ≠ k) : x ∈ deleteByKey key l k := by
  unfold deleteByKey
  exact List.mem_filter.mpr ⟨hx, by simpa using hk⟩

theorem findByKey_append_cons (key : α → String) (a b : List α) (t : α) (k : String)
    (ha : ∀ x ∈ a, key x ≠ k) (ht : key t = k) :
    findByKey key (a ++ t :: b) k = some t := by
  unfold findByKey
  induction a with
  | nil => simp [List.find?, ht]
  | cons x xs ih =>
      have hx : (key x == k) = false := beq_eq_false_iff_ne.mpr (ha x (List.mem_cons_self x xs))
      simpa [List.cons_append, List.find?, hx] using
        ih (fun y hy => ha y (List.mem_cons_of_mem x hy))

theorem putByKey_append_cons (key : α → String) (a b : List α) (t e : α)
    (he : key e = key t)
    (ha : ∀ x ∈ a, key x ≠ key t) (hb : ∀ x ∈ b, key x ≠ key t) :
    putByKey key (a ++ t :: b) e = a ++ e :: b := by
  unfold putByKey
  have hany : ((a ++ t :: b).any (fun x => key x == key e)) = true := by
    simp [List.any_append, List.any_cons, he]
  rw [if_pos hany, List.map_append]
  congr 1
  · have : ∀ x ∈ a, (if key x == key e then e else x) = x := by
      intro x hx
      have : (key x == key e) = false := by
        rw [he]; exact beq_eq_false_iff_ne.mpr (ha x hx)
      simp [this]
    calc a.map (fun x => if key x == key e then e else x) = a.map id := List.map_congr_left this
      _ = a := List.map_id a
  · have ht : (key t == key e) = true := by simp [he]
    have : ∀ x ∈ b, (if key x == key e then e else x) = x := by
      intro x hx
      have : (key x == key e) = false := by
        rw [he]; exact beq_eq_false_iff_ne.mpr (hb x hx)
      simp [this]
    simp only [List.map_cons, ht, if_pos]
    congr 1
    calc b.map (fun x => if key x == key e then e else x) = b.map id := List.map_congr_left this
      _ = b := List.map_id b

end ListHelpers

section StoreLemmas

theorem getByKey_putList (l : List Obj) (e : Obj) (k : JVal)
    (hq : (entKey e == some k) = true) :
    GolfDB.getByKey (GolfDB.putList l k e) k = some e := by
  unfold GolfDB.putList GolfDB.getByKey
  by_cases h : l.any (fun x => entKey x == some k) = true
  · rw [if_pos h]
    exact find?_map_ite (fun x => entKey x == some k) e hq l h
  · have h' : l.any (fun x => entKey x == some k) = false := by simpa using h
    rw [if_neg h]
    rw [find?_append_first _ _ _ h']
    simp [List.find?, hq]

theorem putList_idem (l : List Obj) (e : Obj) (k : JVal)
    (hq : (entKey e == some k) = true) :
    GolfDB.putList (GolfDB.putList l k e) k e = GolfDB.putList l k e := by
  unfold GolfDB.putList
  by_cases h : l.any (fun x => entKey x == some k) = true
  · rw [if_pos h]
    have hany : (l.map (fun x => if entKey x == some k then e else x)).any
        (fun x => entKey x == some k) = true := by
      rcases List.any_eq_true.mp h with ⟨x, hx, hqx⟩
      refine List.any_eq_true.mpr ⟨e, ?_, hq⟩
      refine List.mem_map.mpr ⟨x, hx, ?_⟩
      simp [hqx]
    rw [if_pos hany]
    exact map_ite_twice _ e hq l
  · have h' : l.any (fun x => entKey x == some k) = false := by simpa using h
    rw [if_neg h]
    have hany : ((l ++ [e]).any (fun x => entKey x == some k)) = true := by
      simp [List.any_append, hq]
    rw [if_pos hany, List.map_append]
    have h1 : l.map (fun x => if entKey x == some k then e else x) = l :=
      map_ite_id _ e l h'
    rw [h1, List.map_cons, List.map_nil, if_pos hq]

end StoreLemmas

section PassLemmas

theorem pushOutcome_id (pushOk : SyncItem → Bool) (i : SyncItem) :
    (pushOutcome pushOk i).id = i.id := by
  unfold pushOutcome
  by_cases h : pushOk i = true <;> simp [h]

theorem pass_aux (pushOk : SyncItem → Bool) (dstore : List Obj)
    (dconf : List StoredConflict) :
    ∀ post pre : List SyncItem,
      ((pre ++ post).map SyncItem.id).Nodup →
      List.foldl (stepItem pushOk)
          ⟨dstore, dconf, pre.map (pushOutcome pushOk) ++ post⟩ post
        = ⟨dstore, dconf, (pre ++ post).map (pushOutcome pushOk)⟩ := by
  intro post
  induction post with
  | nil => intro pre _; simp
  | cons t rest ih =>
      intro pre hnd
      have hnd' : (pre.map SyncItem.id ++ t.id :: rest.map SyncItem.id).Nodup := by
        simpa [List.map_append, List.map_cons] using hnd
      rcases List.nodup_append.mp hnd' with ⟨hn1, hn2, hdisj⟩
      have hpre_t : ∀ x ∈ pre, x.id ≠ t.id := by
        intro x hx
        have : x.id ∈ pre.map SyncItem.id := List.mem_map_of_mem _ hx
        intro hc
        exact hdisj this (by simp [hc])
      have ht_rest : t.id ∉ rest.map SyncItem.id := (List.nodup_cons.mp hn2).1
      have hrest_t : ∀ x ∈ rest, x.id ≠ t.id := by
        intro x hx hc
        exact ht_rest (by rw [← hc]; exact List.mem_map_of_mem _ hx)
      have hfind : findByKey SyncItem.id
          (pre.map (pushOutcome pushOk) ++ t :: rest) t.id = some t := by
        refine findByKey_append_cons _ _ _ _ _ ?_ rfl
        intro x hx
        rcases List.mem_map.mp hx with ⟨y, hy, rfl⟩
        rw [pushOutcome_id]
        exact hpre_t y hy
      have hput : ∀ u : SyncItem, u.id = t.id →
          putByKey SyncItem.id (pre.map (pushOutcome pushOk) ++ t :: rest) u
            = pre.map (pushOutcome pushOk) ++ u :: rest := by
        intro u hu
        refine putByKey_append_cons _ _ _ _ _ hu ?_ ?_
        · intro x hx
          rcases List.mem_map.mp hx with ⟨y, hy, rfl⟩
          rw [pushOutcome_id]
          exact hpre_t y hy
        · exact hrest_t
      have hstep : stepItem pushOk
          ⟨dstore, dconf, pre.map (pushOutcome pushOk) ++ t :: rest⟩ t
          = ⟨dstore, dconf, (pre ++ [t]).map (pushOutcome pushOk) ++ rest⟩ := by
        unfold stepItem
        by_cases hp : pushOk t = true
        · rw [if_pos hp]
          unfold GolfDB.markSyncItemComplete
          simp only [hfind]
          have := hput { t with status := "completed" } rfl
          simp only [this]
          have houtc : pushOutcome pushOk t = { t with status := "completed" } := by
            unfold pushOutcome; rw [if_pos hp]
          simp [List.map_append, houtc]
        · rw [if_neg hp]
          unfold GolfDB.retrySyncItem
          simp only [hfind]
          have := hput { t with retries := t.retries + 1, status := "pending" } rfl
          simp only [this]
          have houtc : pushOutcome pushOk t
              = { t with retries := t.retries + 1, status := "pending" } := by
            unfold pushOutcome; rw [if_neg hp]
          simp [List.map_append, houtc]
      rw [List.foldl_cons, hstep]
      have hnd2 : (((pre ++ [t]) ++ rest).map SyncItem.id).Nodup := by
        simpa [List.append_assoc] using hnd
      have := ih (pre ++ [t]) hnd2
      rw [this]
      simp [List.append_assoc]

theorem pass_char (pushOk : SyncItem → Bool) (st : DBState)
    (hnd : (st.syncQueue.map SyncItem.id).Nodup) :
    performSyncPass pushOk st
      = ⟨st.store, st.conflicts, st.syncQueue.map (pushOutcome pushOk)⟩ := by
  have h := pass_aux pushOk st.store st.conflicts st.syncQueue [] (by simpa using hnd)
  simp only [List.nil_append, List.map_nil] at h
  unfold performSyncPass GolfDB.getSyncQueue
  cases st
  exact h

theorem findByKey_map_pushOutcome (pushOk : SyncItem → Bool) :
    ∀ l : List SyncItem, ∀ i : SyncItem, i ∈ l → (l.map SyncItem.id).Nodup →
      findByKey SyncItem.id (l.map (pushOutcome pushOk)) i.id
        = some (pushOutcome pushOk i) := by
  intro l
  induction l with
  | nil => intro i hi; cases hi
  | cons x xs ih =>
      intro i hi hnd
      rw [List.map_cons] at hnd
      rcases List.nodup_cons.mp hnd with ⟨hx_not, hnd'⟩
      rcases List.mem_cons.mp hi with rfl | hi'
      · unfold findByKey
        simp [List.map_cons, List.find?, pushOutcome_id]
      · have hne : (x.id == i.id) = false := by
          refine beq_eq_false_iff_ne.mpr ?_
          intro hc
          exact hx_not (hc ▸ List.mem_map_of_mem _ hi')
        have := ih i hi' hnd'
        unfold findByKey at this ⊢
        simpa [List.map_cons, List.find?, pushOutcome_id, hne] using this

end PassLemmas

section MergeLemmas

theorem getField_mergeStep_ne (locl remot acc : Obj) (fr : String × MergeRule)
    (f : String) (h : fr.1 ≠ f) :
    getField (GolfDB.mergeStep locl remot acc fr) f = getField acc f := by
  obtain ⟨k, rule⟩ := fr
  have h' : f ≠ k := fun hc => h hc.symm
  cases rule with
  | use_remote => exact getField_assignField_ne acc k f _ h'
  | use_local => rfl
  | combine =>
      unfold GolfDB.mergeStep
      cases hL : getField locl k with
      | none => rfl
      | some v =>
          cases v with
          | prim p => rfl
          | arr a =>
              cases hR : getField remot k with
              | none => rfl
              | some w =>
                  cases w with
                  | prim p => rfl
                  | arr b => exact getField_assignField_ne acc k f _ h'
  | latest => exact getField_assignField_ne acc k f _ h'

theorem getField_mergeFold_ne (locl remot : Obj) (f : String) :
    ∀ rules : List (String × MergeRule), (∀ p ∈ rules, p.1 ≠ f) →
      ∀ acc : Obj,
        getField (rules.foldl (GolfDB.mergeStep locl remot) acc) f = getField acc f := by
  intro rules
  induction rules with
  | nil => intro _ acc; rfl
  | cons fr rest ih =>
      intro h acc
      rw [List.foldl_cons]
      rw [ih (fun p hp => h p (List.mem_cons_of_mem fr hp)) _]
      exact getField_mergeStep_ne locl remot acc fr f (h fr (List.mem_cons_self fr rest))

theorem mergeStep_combine_not_arrays (locl remot acc : Obj) (f : String)
    (hna : bothArrays locl remot f = false) :
    GolfDB.mergeStep locl remot acc (f, MergeRule.combine) = acc := by
  unfold GolfDB.mergeStep
  unfold bothArrays at hna
  cases hL : getField locl f with
  | none => rfl
  | some v =>
      cases v with
      | prim p => rfl
      | arr a =>
          cases hR : getField remot f with
          | none => rfl
          | some w =>
              cases w with
              | prim p => rfl
              | arr b => rw [hL, hR] at hna; exact absurd hna (by simp)

theorem getField_mergeStep_latest (locl remot acc : Obj) (f : String) :
    getField (GolfDB.mergeStep locl remot acc (f, MergeRule.latest)) f
      = getField remot f := by
  unfold GolfDB.mergeStep
  exact getField_assignField_self acc f _

end MergeLemmas


section ClearImportLemmas

theorem clearStore_fold_ok :
    ∀ todo cur : List Obj, wellKeyed todo = true →
      (∀ y ∈ cur, ∃ x ∈ todo, entKey y = entKey x) →
      todo.foldlM (fun cur x =>
        match entKey x with
        | some k =>
            if isValidKey k then Except.ok (GolfDB.deleteObj cur k)
            else Except.error DBError.DataError
        | none => Except.error DBError.DataError) cur
        = Except.ok ([] : List Obj) := by
  intro todo
  induction todo with
  | nil =>
      intro cur _ hcur
      have hc : cur = [] := by
        cases cur with
        | nil => rfl
        | cons y ys => rcases hcur y (List.mem_cons_self y ys) with ⟨x, hx, _⟩; cases hx
      rw [hc]
      rfl
  | cons x rest ih =>
      intro cur hwk hcur
      unfold wellKeyed at hwk
      have hgx : goodKey x = true := List.all_eq_true.mp hwk x (List.mem_cons_self x rest)
      have hrest : wellKeyed rest = true := by
        unfold wellKeyed
        exact List.all_eq_true.mpr
          (fun y hy => List.all_eq_true.mp hwk y (List.mem_cons_of_mem x hy))
      cases hk : entKey x with
      | none =>
          exfalso
          unfold goodKey at hgx
          rw [hk] at hgx
          exact Bool.false_ne_true hgx
      | some k =>
          have hvk : isValidKey k = true := by
            unfold goodKey at hgx
            rw [hk] at hgx
            exact hgx
          have hstep : (match entKey x with
              | some k =>
                  if isValidKey k then Except.ok (GolfDB.deleteObj cur k)
                  else Except.error DBError.DataError
              | none => Except.error DBError.DataError)
              = Except.ok (GolfDB.deleteObj cur k) := by
            rw [hk]
            show (if isValidKey k = true then Except.ok (GolfDB.deleteObj cur k)
                else Except.error DBError.DataError) = Except.ok (GolfDB.deleteObj cur k)
            rw [if_pos hvk]
          have hmem2 : ∀ y ∈ GolfDB.deleteObj cur k, ∃ x' ∈ rest, entKey y = entKey x' := by
            intro y hy
            have hmem := List.mem_of_mem_filter hy
            have hne : (entKey y == some k) = false := by
              have := List.of_mem_filter hy
              simpa using this
            rcases hcur y hmem with ⟨x', hx', hkey⟩
            rcases List.mem_cons.mp hx' with rfl | hx''
            · exfalso
              rw [hk] at hkey
              rw [hkey] at hne
              simp at hne
            · exact ⟨x', hx'', hkey⟩
          rw [List.foldlM_cons, hstep]
          exact ih (GolfDB.deleteObj cur k) hrest hmem2

theorem clearStore_ok (l : List Obj) (h : wellKeyed l = true) :
    clearStore l = Except.ok ([] : List Obj) := by
  unfold clearStore
  exact clearStore_fold_ok l l h (fun y hy => ⟨y, hy, rfl⟩)

theorem importFold_ok :
    ∀ l acc : List Obj, wellKeyed l = true →
      ((acc ++ l).map entKey).Nodup →
      l.foldlM GolfDB.put acc = Except.ok (acc ++ l) := by
  intro l
  induction l with
  | nil =>
      intro acc _ _
      simp only [List.append_nil]
      rfl
  | cons e rest ih =>
      intro acc hwk hnd
      unfold wellKeyed at hwk
      have hge : goodKey e = true := List.all_eq_true.mp hwk e (List.mem_cons_self e rest)
      have hrest : wellKeyed rest = true := by
        unfold wellKeyed
        exact List.all_eq_true.mpr
          (fun y hy => List.all_eq_true.mp hwk y (List.mem_cons_of_mem e hy))
      cases hk : entKey e with
      | none =>
          exfalso
          unfold goodKey at hge
          rw [hk] at hge
          exact Bool.false_ne_true hge
      | some k =>
          have hvk : isValidKey k = true := by
            unfold goodKey at hge
            rw [hk] at hge
            exact hge
          have hnd' : (acc.map entKey ++ entKey e :: rest.map entKey).Nodup := by
            simpa [List.map_append, List.map_cons] using hnd
          rcases List.nodup_append.mp hnd' with ⟨h1, h2, hdisj⟩
          have hany : (acc.any (fun x => entKey x == some k)) = false := by
            refine List.any_eq_false.mpr ?_
            intro x hx hc
            have hcx : entKey x = some k := by simpa using hc
            have hxm : entKey x ∈ acc.map entKey := List.mem_map_of_mem _ hx
            have hx2 : entKey x ∈ entKey e :: rest.map entKey := by
              rw [hcx, ← hk]
              exact List.mem_cons_self _ _
            exact hdisj hxm hx2
          have hput : GolfDB.put acc e = Except.ok (acc ++ [e]) := by
            unfold GolfDB.put
            rw [hk]
            show (if isValidKey k = true then Except.ok (GolfDB.putList acc k e)
                else Except.error DBError.DataError) = Except.ok (acc ++ [e])
            rw [if_pos hvk]
            unfold GolfDB.putList
            rw [hany]
            simp
          rw [List.foldlM_cons, hput]
          have hnd2 : (((acc ++ [e]) ++ rest).map entKey).Nodup := by
            simpa [List.append_assoc] using hnd
          have hres := ih (acc ++ [e]) hrest hnd2
          have hassoc : (acc ++ [e]) ++ rest = acc ++ e :: rest := by simp
          rw [hassoc] at hres
          exact hres

end ClearImportLemmas

/-! ### Claim theorems -/

/-- Reduction of `classify` on two present entities, stated once so the
case analysis below can manipulate the branch conditions. -/
theorem classify_some_some (l r : Obj) :
    GolfDB.classify (some l) (some r) =
      (if (truthy (getField r "lastModified") && truthy (getField l "lastModified")) = true then
        (if jsGt (getField r "lastModified") (getField l "lastModified") = true then
          some ConflictType.server_newer
        else if jsGt (getField l "lastModified") (getField r "lastModified") = true then
          some ConflictType.local_newer
        else if r ≠ l then some ConflictType.content_conflict else none)
      else if r ≠ l then some ConflictType.content_conflict else none) := rfl

/-- C7: `put` is idempotent — for a collection `c` and an entity `e`
carrying a valid `id` key, performing `put(c, e)` twice in succession
leaves the store in the same state as performing it once, and
`get(c, e.id)` returns `e` afterwards. -/
theorem put_idempotent (c : List Obj) (e : Obj) (k : JVal)
    (hk : entKey e = some k) (hv : isValidKey k = true) :
    ∃ c', GolfDB.put c e = Except.ok c' ∧ GolfDB.put c' e = Except.ok c' ∧
      GolfDB.getByKey c' k = some e := by
  have hq : (entKey e == some k) = true := by simp [hk]
  refine ⟨GolfDB.putList c k e, ?_, ?_, ?_⟩
  · unfold GolfDB.put
    rw [hk]
    show (if isValidKey k = true then Except.ok (GolfDB.putList c k e)
        else Except.error DBError.DataError) = Except.ok (GolfDB.putList c k e)
    rw [if_pos hv]
  · unfold GolfDB.put
    rw [hk]
    show (if isValidKey k = true then Except.ok (GolfDB.putList (GolfDB.putList c k e) k e)
        else Except.error DBError.DataError) = Except.ok (GolfDB.putList c k e)
    rw [if_pos hv, putList_idem c e k hq]
  · exact getByKey_putList c e k hq

/-- Witness for `put_idempotent`: the double `put` of a concrete entity
into the empty collection. -/
theorem put_idempotent_witness :
    GolfDB.put [c7Ent] c7Ent = Except.ok [c7Ent] := by
  obtain ⟨c', h1, h2, _⟩ := put_idempotent [] c7Ent (JVal.prim (JPrim.pstr "k")) rfl rfl
  have h0 : GolfDB.put [] c7Ent = Except.ok [c7Ent] := rfl
  rw [h0] at h1
  have hc : c' = [c7Ent]  := (Except.ok.inj h1).symm
  rw [← hc]
  exact h2

/-- C8: `add` of a second entity with an existing id fails with the
duplicate-key error (IndexedDB `ConstraintError`), and the failed `add`
leaves the collection unchanged — `get` still returns the first entity. -/
theorem add_duplicate_key_fails (c c' : List Obj) (e1 e2 : Obj) (k : JVal)
    (hk1 : entKey e1 = some k) (hk2 : entKey e2 = some k) (hv : isValidKey k = true)
    (hne : e1 ≠ e2) (h1 : GolfDB.add c e1 = Except.ok c') :
    GolfDB.add c' e2 = Except.error DBError.ConstraintError ∧
      GolfDB.getByKey c' k = some e1 := by
  have hq1 : (entKey e1 == some k) = true := by simp [hk1]
  by_cases hany : (c.any (fun x => entKey x == some k)) = true
  · exfalso
    have hdup : GolfDB.add c e1 = Except.error DBError.ConstraintError := by
      unfold GolfDB.add
      rw [hk1]
      show (if isValidKey k = true then
          (if (c.any (fun x => entKey x == some k)) = true then
            Except.error DBError.ConstraintError
          else Except.ok (c ++ [e1]))
        else Except.error DBError.DataError) = Except.error DBError.ConstraintError
      rw [if_pos hv, if_pos hany]
    rw [hdup] at h1
    exact Except.noConfusion h1
  · have hanyf : (c.any (fun x => entKey x == some k)) = false := by simpa using hany
    have hok : GolfDB.add c e1 = Except.ok (c ++ [e1]) := by
      unfold GolfDB.add
      rw [hk1]
      show (if isValidKey k = true then
          (if (c.any (fun x => entKey x == some k)) = true then
            Except.error DBError.ConstraintError
          else Except.ok (c ++ [e1]))
        else Except.error DBError.DataError) = Except.ok (c ++ [e1])
      rw [if_pos hv, if_neg (by simp [hanyf])]
    rw [hok] at h1
    have hc' : c' = c ++ [e1] := (Except.ok.inj h1).symm
    subst hc'
    constructor
    · unfold GolfDB.add
      rw [hk2]
      have hany2 : ((c ++ [e1]).any (fun x => entKey x == some k)) = true := by
        simp [List.any_append, hq1]
      show (if isValidKey k = true then
          (if ((c ++ [e1]).any (fun x => entKey x == some k)) = true then
            Except.error DBError.ConstraintError
          else Except.ok ((c ++ [e1]) ++ [e2]))
        else Except.error DBError.DataError) = Except.error DBError.ConstraintError
      rw [if_pos hv, if_pos hany2]
    · unfold GolfDB.getByKey
      rw [find?_append_first _ _ _ hanyf]
      simp [List.find?, hq1]

/-- Witness for `add_duplicate_key_fails`: two distinct concrete entities
sharing the id `"k"` added to the empty collection. -/
theorem add_duplicate_key_fails_witness :
    GolfDB.add [c8Ent1] c8Ent2 = Except.error DBError.ConstraintError ∧
      GolfDB.getByKey [c8Ent1] (JVal.prim (JPrim.pstr "k")) = some c8Ent1 :=
  add_duplicate_key_fails [] [c8Ent1] c8Ent1 c8Ent2 (JVal.prim (JPrim.pstr "k"))
    rfl rfl rfl (by decide) rfl

/-- C2 (amended): the conflict-detection comparison classifies by the
spec's case analysis, with one correction: the timestamp comparison only
applies when both `lastModified` values are truthy in JS (present and
nonzero).  Both present with nonzero numeric timestamps and
remote > local → `server_newer`; local > remote → `local_newer`; equal
nonzero timestamps, or either timestamp absent or zero, with differing
serialized content → `content_conflict`, with equal content → no record;
only remote present → `server_only`; only local present → `local_only`. -/
theorem classify_case_analysis (l r : Obj) :
    (∀ a b : Int,
      getField l "lastModified" = some (JVal.prim (JPrim.pnum a)) →
      getField r "lastModified" = some (JVal.prim (JPrim.pnum b)) →
      a ≠ 0 → b ≠ 0 →
      ((a < b → GolfDB.classify (some l) (some r) = some ConflictType.server_newer) ∧
       (b < a → GolfDB.classify (some l) (some r) = some ConflictType.local_newer) ∧
       (a = b → r ≠ l → GolfDB.classify (some l) (some r) = some ConflictType.content_conflict) ∧
       (a = b → r = l → GolfDB.classify (some l) (some r) = none)))
    ∧ ((truthy (getField r "lastModified") && truthy (getField l "lastModified")) = false →
       ((r ≠ l → GolfDB.classify (some l) (some r) = some ConflictType.content_conflict) ∧
        (r = l → GolfDB.classify (some l) (some r) = none)))
    ∧ GolfDB.classify none (some r) = some ConflictType.server_only
    ∧ GolfDB.classify (some l) none = some ConflictType.local_only
    ∧ GolfDB.classify (none : Option Obj) (none : Option Obj) = none := by
  refine ⟨?_, ?_, rfl, rfl, rfl⟩
  · intro a b hl hr ha hb
    have htr : (truthy (getField r "lastModified") && truthy (getField l "lastModified"))
        = true := by
      rw [hl, hr]
      simp [truthy, ha, hb]
    refine ⟨?_, ?_, ?_, ?_⟩
    · intro hab
      have hgt : jsGt (getField r "lastModified") (getField l "lastModified") = true := by
        rw [hl, hr]
        simpa [jsGt, jvalGt] using hab
      rw [classify_some_some, if_pos htr, if_pos hgt]
    · intro hba
      have hgt : jsGt (getField r "lastModified") (getField l "lastModified") = false := by
        rw [hl, hr]
        simp [jsGt, jvalGt]
        omega
      have hgt2 : jsGt (getField l "lastModified") (getField r "lastModified") = true := by
        rw [hl, hr]
        simpa [jsGt, jvalGt] using hba
      rw [classify_some_some, if_pos htr, if_neg (by simp [hgt]), if_pos hgt2]
    · intro hab hne
      have hgt : jsGt (getField r "lastModified") (getField l "lastModified") = false := by
        rw [hl, hr]
        simp [jsGt, jvalGt]
        omega
      have hgt2 : jsGt (getField l "lastModified") (getField r "lastModified") = false := by
        rw [hl, hr]
        simp [jsGt, jvalGt]
        omega
      rw [classify_some_some, if_pos htr, if_neg (by simp [hgt]), if_neg (by simp [hgt2]),
        if_pos hne]
    · intro hab heq
      have hgt : jsGt (getField r "lastModified") (getField l "lastModified") = false := by
        rw [hl, hr]
        simp [jsGt, jvalGt]
        omega
      have hgt2 : jsGt (getField l "lastModified") (getField r "lastModified") = false := by
        rw [hl, hr]
        simp [jsGt, jvalGt]
        omega
      rw [classify_some_some, if_pos htr, if_neg (by simp [hgt]), if_neg (by simp [hgt2]),
        if_neg (fun hc => hc heq)]
  · intro hfalse
    constructor
    · intro hne
      rw [classify_some_some, if_neg (by simp [hfalse]), if_pos hne]
    · intro heq
      rw [classify_some_some, if_neg (by simp [hfalse]), if_neg (fun hc => hc heq)]

/-- Witness for `classify_case_analysis`: two concrete present entities
with nonzero timestamps 100 < 200 classify as `server_newer`. -/
theorem classify_case_analysis_witness :
    GolfDB.classify (some c2wLocal) (some c2wRemote) = some ConflictType.server_newer :=
  ((classify_case_analysis c2wLocal c2wRemote).1 100 200 rfl rfl
    (by decide) (by decide)).1 (by decide)

/-- C2 counterexample: both entities are present and the remote
`lastModified = 5` is strictly greater than the local `lastModified = 0`,
so the claim requires `server_newer`; the code classifies
`content_conflict`, because `0` is falsy in JS and the timestamp guard
falls through to the content comparison. -/
theorem classify_zero_timestamp_counterexample :
    getField c2Local "lastModified" = some (JVal.prim (JPrim.pnum 0)) ∧
    getField c2Remote "lastModified" = some (JVal.prim (JPrim.pnum 5)) ∧
    ((0 : Int) < 5) ∧
    GolfDB.classify (some c2Local) (some c2Remote) = some ConflictType.content_conflict ∧
    GolfDB.classify (some c2Local) (some c2Remote) ≠ some ConflictType.server_newer := by
  refine ⟨rfl, rfl, by decide, by decide, by decide⟩

/-- Helper: `put` of an entity with a valid key succeeds with the
insert-or-replace result. -/
theorem put_eq_ok (c : List Obj) (e : Obj) (k : JVal) (hk : entKey e = some k)
    (hv : isValidKey k = true) : GolfDB.put c e = Except.ok (GolfDB.putList c k e) := by
  unfold GolfDB.put
  rw [hk]
  show (if isValidKey k = true then Except.ok (GolfDB.putList c k e)
      else Except.error DBError.DataError) = Except.ok (GolfDB.putList c k e)
  rw [if_pos hv]

/-- C1 (amended): resolving a conflict whose local and remote entities are
both present with the `use_local` strategy writes the local entity back to
the store with `lastModified` set to the resolution time and
`synced = false`, agreeing with the local entity on every other field —
but it appends no sync-queue item whatsoever: the sync queue (and the
`conflicts` store) are left exactly unchanged.  The claimed `pending`
`put` queue item is never created by the source. -/
theorem use_local_writes_back_without_enqueue (storeName : String)
    (conflict : ConflictPair) (l : Obj) (s : String) (now : Nat) (st : DBState)
    (hl : conflict.clocal = some l)
    (hk : entKey l = some (JVal.prim (JPrim.pstr s))) :
    ∃ st', GolfDB.resolveConflict storeName conflict ⟨Strategy.use_local, []⟩ now st
        = Except.ok st' ∧
      st'.syncQueue = st.syncQueue ∧
      st'.conflicts = st.conflicts ∧
      (∃ e, GolfDB.getByKey st'.store (JVal.prim (JPrim.pstr s)) = some e ∧
        getField e "lastModified" = some (JVal.prim (JPrim.pnum now)) ∧
        getField e "synced" = some (JVal.prim (JPrim.pbool false)) ∧
        (∀ f, f ≠ "lastModified" → f ≠ "synced" → getField e f = getField l f)) := by
  have hek : entKey (setField (setField l "lastModified" (JVal.prim (JPrim.pnum now)))
      "synced" (JVal.prim (JPrim.pbool false))) = some (JVal.prim (JPrim.pstr s)) := by
    unfold entKey
    rw [getField_setField_ne _ _ _ _ (by decide), getField_setField_ne _ _ _ _ (by decide)]
    exact hk
  have hput := put_eq_ok st.store
    (setField (setField l "lastModified" (JVal.prim (JPrim.pnum now)))
      "synced" (JVal.prim (JPrim.pbool false)))
    (JVal.prim (JPrim.pstr s)) hek rfl
  have hres : GolfDB.resolveConflict storeName conflict ⟨Strategy.use_local, []⟩ now st
      = (GolfDB.put st.store
          (setField (setField l "lastModified" (JVal.prim (JPrim.pnum now)))
            "synced" (JVal.prim (JPrim.pbool false)))).map
          (fun s' => { st with store := s' }) := by
    unfold GolfDB.resolveConflict
    rw [hl]
    rfl
  refine ⟨⟨GolfDB.putList st.store (JVal.prim (JPrim.pstr s))
      (setField (setField l "lastModified" (JVal.prim (JPrim.pnum now)))
        "synced" (JVal.prim (JPrim.pbool false))), st.conflicts, st.syncQueue⟩,
    ?_, rfl, rfl, ?_⟩
  · rw [hres, hput]
    rfl
  · refine ⟨setField (setField l "lastModified" (JVal.prim (JPrim.pnum now)))
      "synced" (JVal.prim (JPrim.pbool false)), ?_, ?_, ?_, ?_⟩
    · exact getByKey_putList st.store _ _ (by simp [hek])
    · rw [getField_setField_ne _ _ _ _ (by decide)]
      exact getField_setField_self l "lastModified" _
    · exact getField_setField_self _ "synced" _
    · intro f hf1 hf2
      rw [getField_setField_ne _ _ _ _ hf2, getField_setField_ne _ _ _ _ hf1]

/-- Witness for `use_local_writes_back_without_enqueue` at a concrete
both-present conflict and database. -/
theorem use_local_writes_back_witness :
    c1Pair.clocal = some c1Local ∧
    (∃ st', GolfDB.resolveConflict "courses" c1Pair ⟨Strategy.use_local, []⟩ 300 c1St
        = Except.ok st' ∧
      st'.syncQueue = c1St.syncQueue ∧
      st'.conflicts = c1St.conflicts ∧
      (∃ e, GolfDB.getByKey st'.store (JVal.prim (JPrim.pstr "e1")) = some e ∧
        getField e "lastModified" = some (JVal.prim (JPrim.pnum 300)) ∧
        getField e "synced" = some (JVal.prim (JPrim.pbool false)) ∧
        (∀ f, f ≠ "lastModified" → f ≠ "synced" → getField e f = getField c1Local f))) :=
  ⟨rfl, use_local_writes_back_without_enqueue "courses" c1Pair c1Local "e1" 300 c1St rfl rfl⟩

/-- C1 counterexample: resolving a concrete both-present conflict with
`use_local` succeeds (it writes the stamped local entity back) but appends
no sync-queue item at all — the queue is empty before and after, whereas
the claim requires exactly one new `pending` `put` item after. -/
theorem use_local_enqueue_counterexample :
    GolfDB.resolveConflict "courses" c1Pair ⟨Strategy.use_local, []⟩ 300 c1St
      = Except.ok (⟨[[("id", JVal.prim (JPrim.pstr "e1")),
          ("lastModified", JVal.prim (JPrim.pnum 300)),
          ("synced", JVal.prim (JPrim.pbool false))]], [], []⟩ : DBState) ∧
    c1St.syncQueue.length = 0 ∧
    (⟨[[("id", JVal.prim (JPrim.pstr "e1")), ("lastModified", JVal.prim (JPrim.pnum 300)),
        ("synced", JVal.prim (JPrim.pbool false))]], [], []⟩ : DBState).syncQueue.length = 0 :=
  ⟨rfl, rfl, rfl⟩

/-- C3 (amended): draining the mutation queue (`getSyncQueue`, which is
`getAll` on the `syncQueue` store) yields every queue item regardless of
status — items with status `completed` or `failed` are not excluded — in
store order, and the sync pass consequently processes all of them: with
distinct item ids, one pass maps every item (whatever its status) through
its push outcome. -/
theorem drain_returns_all_items (pushOk : SyncItem → Bool) (st : DBState) :
    GolfDB.getSyncQueue st = st.syncQueue ∧
    ((st.syncQueue.map SyncItem.id).Nodup →
      (performSyncPass pushOk st).syncQueue = st.syncQueue.map (pushOutcome pushOk)) := by
  refine ⟨rfl, ?_⟩
  intro hnd
  rw [pass_char pushOk st hnd]

/-- Witness for `drain_returns_all_items` at a concrete two-item queue. -/
theorem drain_returns_all_items_witness :
    (performSyncPass failFirstPush c3wSt).syncQueue
      = c3wSt.syncQueue.map (pushOutcome failFirstPush) :=
  (drain_returns_all_items failFirstPush c3wSt).2 (by decide)

/-- C3 counterexample: a queue holding one `completed` item — the drain
returns that item, not the empty pending-only sequence the claim
requires. -/
theorem drain_includes_completed_counterexample :
    GolfDB.getSyncQueue c3St = [c3Item] ∧ c3Item.status = "completed" ∧
      GolfDB.getSyncQueue c3St ≠ [] :=
  ⟨rfl, rfl, by decide⟩

/-- C4 (amended): `performSync` never consults the coordinator's
`syncStatus` — a trigger that arrives while the state is `syncing` runs a
full pass exactly as one arriving in `idle` does (re-entrant triggers are
not dropped); the only guards are a missing database handle and being
offline, both of which leave the state and the store untouched. -/
theorem sync_trigger_ignores_status (pushOk : SyncItem → Bool) (st : DBState)
    (s1 s2 : SyncStatus) (d o : Bool) :
    performSync pushOk true true s1 st = performSync pushOk true true s2 st ∧
    performSync pushOk d false s1 st = (s1, st) ∧
    performSync pushOk false o s1 st = (s1, st) := by
  refine ⟨rfl, ?_, ?_⟩
  · cases d <;> rfl
  · cases o <;> rfl

/-- C4 counterexample: with one pending queue item and a successful push,
a trigger arriving in state `syncing` performs queue processing and
changes both the coordinator state (to `idle`) and the queue (the item
becomes `completed`) — it is not a no-op. -/
theorem sync_trigger_while_syncing_counterexample :
    performSync (fun _ => true) true true SyncStatus.syncing c4St
      = (SyncStatus.idle, c4After) ∧
    (SyncStatus.idle, c4After) ≠ (SyncStatus.syncing, c4St) :=
  ⟨rfl, by decide⟩

/-- C6: when pushing a queue item fails during a sync pass, the item's
`retries` counter (the spec's `retryCount`) is incremented by one and its
status remains `pending`, so it reappears in the next drain; and the pass
continues past it — every other item whose push succeeds still ends up
`completed`. -/
theorem failed_push_retries_and_continues (pushOk : SyncItem → Bool) (st : DBState)
    (i : SyncItem) (hmem : i ∈ st.syncQueue)
    (hnd : (st.syncQueue.map SyncItem.id).Nodup)
    (hfail : pushOk i = false) (hpend : i.status = "pending") :
    findByKey SyncItem.id (performSyncPass pushOk st).syncQueue i.id
      = some { i with retries := i.retries + 1, status := "pending" } ∧
    { i with retries := i.retries + 1, status := "pending" }
      ∈ GolfDB.getSyncQueue (performSyncPass pushOk st) ∧
    (∀ j ∈ st.syncQueue, pushOk j = true →
      { j with status := "completed" } ∈ (performSyncPass pushOk st).syncQueue) := by
  have hchar := pass_char pushOk st hnd
  have houtc : pushOutcome pushOk i
      = { i with retries := i.retries + 1, status := "pending" } := by
    unfold pushOutcome
    rw [if_neg (by simp [hfail])]
  refine ⟨?_, ?_, ?_⟩
  · rw [hchar]
    show findByKey SyncItem.id (st.syncQueue.map (pushOutcome pushOk)) i.id = _
    rw [findByKey_map_pushOutcome pushOk st.syncQueue i hmem hnd, houtc]
  · rw [hchar]
    show _ ∈ st.syncQueue.map (pushOutcome pushOk)
    rw [← houtc]
    exact List.mem_map_of_mem _ hmem
  · intro j hj hjOk
    rw [hchar]
    show _ ∈ st.syncQueue.map (pushOutcome pushOk)
    have hcomp : pushOutcome pushOk j = { j with status := "completed" } := by
      unfold pushOutcome
      rw [if_pos hjOk]
    rw [← hcomp]
    exact List.mem_map_of_mem _ hj

/-- Witness for `failed_push_retries_and_continues`: a concrete two-item
queue whose first item fails to push and whose second succeeds. -/
theorem failed_push_retries_witness :
    findByKey SyncItem.id (performSyncPass failFirstPush c3wSt).syncQueue c3wItem1.id
      = some { c3wItem1 with retries := c3wItem1.retries + 1, status := "pending" } ∧
    { c3wItem2 with status := "completed" }
      ∈ (performSyncPass failFirstPush c3wSt).syncQueue := by
  have h := failed_push_retries_and_continues failFirstPush c3wSt c3wItem1
    (by decide) (by decide) rfl rfl
  exact ⟨h.1, h.2.2 c3wItem2 (by decide) rfl⟩

/-- Helper: an `Except.map` into a record that only replaces the store
field cannot change the conflicts or the queue. -/
theorem map_store_only (st : DBState) (x : Except DBError (List Obj)) (st'' : DBState)
    (h : x.map (fun s => (⟨s, st.conflicts, st.syncQueue⟩ : DBState)) = Except.ok st'') :
    st''.conflicts = st.conflicts ∧ st''.syncQueue = st.syncQueue := by
  cases x with
  | error e => exact absurd h (by simp [Except.map])
  | ok s =>
      have hval : (⟨s, st.conflicts, st.syncQueue⟩ : DBState) = st'' := by
        simpa [Except.map] using h
      rw [← hval]
      exact ⟨rfl, rfl⟩

/-- Helper: a non-`manual` `resolveConflict` never touches the `conflicts`
store or the sync queue. -/
theorem resolveConflict_nonmanual_conflicts (storeName : String) (conflict : ConflictPair)
    (res : Resolution) (now : Nat) (st : DBState) (st'' : DBState)
    (hok : GolfDB.resolveConflict storeName conflict res now st = Except.ok st'')
    (hnm : res.strategy ≠ Strategy.manual) :
    st''.conflicts = st.conflicts ∧ st''.syncQueue = st.syncQueue := by
  unfold GolfDB.resolveConflict at hok
  cases hs : res.strategy with
  | use_local =>
      rw [hs] at hok
      exact map_store_only st _ st'' hok
  | use_remote =>
      rw [hs] at hok
      exact map_store_only st _ st'' hok
  | merge =>
      rw [hs] at hok
      exact map_store_only st _ st'' hok
  | manual => exact absurd hs hnm

/-- C5 (amended): for stored Conflict Records whose local and remote
entities are both present (with valid string ids — the records produced
for genuinely diverging pairs), resolving via `resolveStoredConflict` with
strategy `use_local`, `use_remote` or `merge` removes exactly that record
from the `conflicts` store and creates no new one (for `merge` with any
rule set, whenever the resolution succeeds; with the empty rule set it
does succeed); `use_remote` additionally leaves the entity stored with
`synced = true` (and every other field taken from the remote entity);
`manual` is the only path that leaves the unresolved pair persisted as a
Conflict Record (under a fresh id generated from the resolution time)
rather than cleared, and it does not mutate the entity store.  The
freshness hypothesis states that the generated id `conflict-<now>` is not
already taken.  The both-present restriction is necessary: on a record
with a `null` side the entity-writing strategies throw `DataError` from
the id-less `put` before the delete runs, and the record is not cleared
(see the counterexample). -/
theorem resolveStoredConflict_clears_record (cid : String) (now : Nat) (st : DBState)
    (c : StoredConflict) (l r : Obj) (sl sr : String)
    (hc : findByKey StoredConflict.id st.conflicts cid = some c)
    (hl : c.conflict.clocal = some l) (hr : c.conflict.cremote = some r)
    (hkl : entKey l = some (JVal.prim (JPrim.pstr sl)))
    (hkr : entKey r = some (JVal.prim (JPrim.pstr sr)))
    (hfresh : ∀ d ∈ st.conflicts, d.id ≠ "conflict-" ++ toString now) :
    (∀ res : Resolution, res.strategy ≠ Strategy.manual →
      ∀ st', GolfDB.resolveStoredConflict cid res now st = Except.ok st' →
        st'.conflicts = deleteByKey StoredConflict.id st.conflicts cid ∧
        findByKey StoredConflict.id st'.conflicts cid = none) ∧
    (∃ st', GolfDB.resolveStoredConflict cid ⟨Strategy.use_local, []⟩ now st
        = Except.ok st') ∧
    (∃ st', GolfDB.resolveStoredConflict cid ⟨Strategy.use_remote, []⟩ now st
        = Except.ok st' ∧
      (∃ e, GolfDB.getByKey st'.store (JVal.prim (JPrim.pstr sr)) = some e ∧
        getField e "synced" = some (JVal.prim (JPrim.pbool true)) ∧
        (∀ f, f ≠ "synced" → getField e f = getField r f))) ∧
    (∃ st', GolfDB.resolveStoredConflict cid ⟨Strategy.manual, []⟩ now st = Except.ok st' ∧
      st'.store = st.store ∧
      findByKey StoredConflict.id st'.conflicts cid = none ∧
      (∃ d, d ∈ st'.conflicts ∧ d.conflict = c.conflict)) ∧
    (∃ st', GolfDB.resolveStoredConflict cid ⟨Strategy.merge, []⟩ now st
        = Except.ok st') := by
  have hrsc : ∀ res : Resolution, GolfDB.resolveStoredConflict cid res now st
      = (GolfDB.resolveConflict c.storeName c.conflict res now st).map
          (fun st'' => { st'' with
            conflicts := deleteByKey StoredConflict.id st''.conflicts cid }) := by
    intro res
    unfold GolfDB.resolveStoredConflict
    rw [hc]
  refine ⟨?_, ?_, ?_, ?_, ?_⟩
  · intro res hnm st' hok
    rw [hrsc res] at hok
    cases hput : GolfDB.resolveConflict c.storeName c.conflict res now st with
    | error e =>
        rw [hput] at hok
        exact absurd hok (by simp [Except.map])
    | ok st'' =>
        rw [hput] at hok
        have hst' : ({ st'' with
            conflicts := deleteByKey StoredConflict.id st''.conflicts cid }) = st' := by
          simpa [Except.map] using hok
        have hcq := resolveConflict_nonmanual_conflicts c.storeName c.conflict res now st
          st'' hput hnm
        rw [← hst']
        constructor
        · show deleteByKey StoredConflict.id st''.conflicts cid
            = deleteByKey StoredConflict.id st.conflicts cid
          rw [hcq.1]
        · show findByKey StoredConflict.id
            (deleteByKey StoredConflict.id st''.conflicts cid) cid = none
          exact findByKey_deleteByKey_self _ _ _
  · have hekl : entKey (setField (setField l "lastModified" (JVal.prim (JPrim.pnum now)))
        "synced" (JVal.prim (JPrim.pbool false))) = some (JVal.prim (JPrim.pstr sl)) := by
      unfold entKey
      rw [getField_setField_ne _ _ _ _ (by decide), getField_setField_ne _ _ _ _ (by decide)]
      exact hkl
    have hputl := put_eq_ok st.store
      (setField (setField l "lastModified" (JVal.prim (JPrim.pnum now)))
        "synced" (JVal.prim (JPrim.pbool false))) (JVal.prim (JPrim.pstr sl)) hekl rfl
    have hresl : GolfDB.resolveConflict c.storeName c.conflict ⟨Strategy.use_local, []⟩ now st
        = Except.ok ⟨GolfDB.putList st.store (JVal.prim (JPrim.pstr sl))
            (setField (setField l "lastModified" (JVal.prim (JPrim.pnum now)))
              "synced" (JVal.prim (JPrim.pbool false))), st.conflicts, st.syncQueue⟩ := by
      unfold GolfDB.resolveConflict
      rw [hl]
      show (GolfDB.put st.store
          (setField (setField l "lastModified" (JVal.prim (JPrim.pnum now)))
            "synced" (JVal.prim (JPrim.pbool false)))).map
          (fun s => (⟨s, st.conflicts, st.syncQueue⟩ : DBState)) = _
      rw [hputl]
      rfl
    refine ⟨⟨GolfDB.putList st.store (JVal.prim (JPrim.pstr sl))
        (setField (setField l "lastModified" (JVal.prim (JPrim.pnum now)))
          "synced" (JVal.prim (JPrim.pbool false))),
        deleteByKey StoredConflict.id st.conflicts cid, st.syncQueue⟩, ?_⟩
    rw [hrsc ⟨Strategy.use_local, []⟩, hresl]
    rfl
  · have hekr : entKey (setField r "synced" (JVal.prim (JPrim.pbool true)))
        = some (JVal.prim (JPrim.pstr sr)) := by
      unfold entKey
      rw [getField_setField_ne _ _ _ _ (by decide)]
      exact hkr
    have hputr := put_eq_ok st.store (setField r "synced" (JVal.prim (JPrim.pbool true)))
      (JVal.prim (JPrim.pstr sr)) hekr rfl
    have hresr : GolfDB.resolveConflict c.storeName c.conflict ⟨Strategy.use_remote, []⟩ now st
        = Except.ok ⟨GolfDB.putList st.store (JVal.prim (JPrim.pstr sr))
            (setField r "synced" (JVal.prim (JPrim.pbool true))),
            st.conflicts, st.syncQueue⟩ := by
      unfold GolfDB.resolveConflict
      rw [hr]
      show (GolfDB.put st.store (setField r "synced" (JVal.prim (JPrim.pbool true)))).map
          (fun s => (⟨s, st.conflicts, st.syncQueue⟩ : DBState)) = _
      rw [hputr]
      rfl
    refine ⟨⟨GolfDB.putList st.store (JVal.prim (JPrim.pstr sr))
        (setField r "synced" (JVal.prim (JPrim.pbool true))),
        deleteByKey StoredConflict.id st.conflicts cid, st.syncQueue⟩, ?_, ?_⟩
    · rw [hrsc ⟨Strategy.use_remote, []⟩, hresr]
      rfl
    · refine ⟨setField r "synced" (JVal.prim (JPrim.pbool true)), ?_, ?_, ?_⟩
      · exact getByKey_putList st.store _ _ (by simp [hekr])
      · exact getField_setField_self r "synced" _
      · intro f hf
        rw [getField_setField_ne _ _ _ _ hf]
  · have hcm := findByKey_eq_some_key hc
    have hnotc : cid ≠ "conflict-" ++ toString now := by
      rw [← hcm.1]
      exact hfresh c hcm.2
    have hanyf : (st.conflicts.any (fun x => StoredConflict.id x
        == "conflict-" ++ toString now)) = false := by
      refine List.any_eq_false.mpr ?_
      intro d hd hcd
      exact hfresh d hd (by simpa using hcd)
    have hstore : GolfDB.storeConflict c.storeName c.conflict now st
        = ⟨st.store, st.conflicts
            ++ [⟨"conflict-" ++ toString now, c.storeName, c.conflict, now⟩],
            st.syncQueue⟩ := by
      unfold GolfDB.storeConflict addByKey
      simp only [hanyf]
      rfl
    have hresm : GolfDB.resolveConflict c.storeName c.conflict ⟨Strategy.manual, []⟩ now st
        = Except.ok ⟨st.store, st.conflicts
            ++ [⟨"conflict-" ++ toString now, c.storeName, c.conflict, now⟩],
            st.syncQueue⟩ := by
      unfold GolfDB.resolveConflict
      show Except.ok (GolfDB.storeConflict c.storeName c.conflict now st) = _
      rw [hstore]
    refine ⟨⟨st.store, deleteByKey StoredConflict.id (st.conflicts
        ++ [⟨"conflict-" ++ toString now, c.storeName, c.conflict, now⟩]) cid,
        st.syncQueue⟩, ?_, rfl, ?_, ?_⟩
    · rw [hrsc ⟨Strategy.manual, []⟩, hresm]
      rfl
    · exact findByKey_deleteByKey_self _ _ _
    · refine ⟨⟨"conflict-" ++ toString now, c.storeName, c.conflict, now⟩, ?_, rfl⟩
      refine mem_deleteByKey _ _ ?_ ?_
      · exact List.mem_append_right _ (List.mem_cons_self _ _)
      · exact fun hcc => hnotc hcc.symm
  · have hekl : entKey (setField (setField l "lastModified" (JVal.prim (JPrim.pnum now)))
        "synced" (JVal.prim (JPrim.pbool false))) = some (JVal.prim (JPrim.pstr sl)) := by
      unfold entKey
      rw [getField_setField_ne _ _ _ _ (by decide), getField_setField_ne _ _ _ _ (by decide)]
      exact hkl
    have hputl := put_eq_ok st.store
      (setField (setField l "lastModified" (JVal.prim (JPrim.pnum now)))
        "synced" (JVal.prim (JPrim.pbool false))) (JVal.prim (JPrim.pstr sl)) hekl rfl
    have hresmg : GolfDB.resolveConflict c.storeName c.conflict ⟨Strategy.merge, []⟩ now st
        = Except.ok ⟨GolfDB.putList st.store (JVal.prim (JPrim.pstr sl))
            (setField (setField l "lastModified" (JVal.prim (JPrim.pnum now)))
              "synced" (JVal.prim (JPrim.pbool false))), st.conflicts, st.syncQueue⟩ := by
      unfold GolfDB.resolveConflict
      rw [hl, hr]
      show (GolfDB.put st.store
          (setField (setField l "lastModified" (JVal.prim (JPrim.pnum now)))
            "synced" (JVal.prim (JPrim.pbool false)))).map
          (fun s => (⟨s, st.conflicts, st.syncQueue⟩ : DBState)) = _
      rw [hputl]
      rfl
    refine ⟨⟨GolfDB.putList st.store (JVal.prim (JPrim.pstr sl))
        (setField (setField l "lastModified" (JVal.prim (JPrim.pnum now)))
          "synced" (JVal.prim (JPrim.pbool false))),
        deleteByKey StoredConflict.id st.conflicts cid, st.syncQueue⟩, ?_⟩
    rw [hrsc ⟨Strategy.merge, []⟩, hresmg]
    rfl

/-- Witness for `resolveStoredConflict_clears_record`: a concrete stored
both-present conflict resolved with `use_remote` (record cleared, entity
synced), with `manual` (pair re-persisted, store untouched), and with
`merge` on the empty rule set (resolution succeeds). -/
theorem resolveStoredConflict_clears_record_witness :
    (∃ st', GolfDB.resolveStoredConflict "conflict-100" ⟨Strategy.use_remote, []⟩ 500 c5St
        = Except.ok st' ∧
      (∃ e, GolfDB.getByKey st'.store (JVal.prim (JPrim.pstr "course-1")) = some e ∧
        getField e "synced" = some (JVal.prim (JPrim.pbool true)) ∧
        (∀ f, f ≠ "synced" → getField e f = getField c5Remote f))) ∧
    (∃ st', GolfDB.resolveStoredConflict "conflict-100" ⟨Strategy.manual, []⟩ 500 c5St
        = Except.ok st' ∧ st'.store = c5St.store ∧
      findByKey StoredConflict.id st'.conflicts "conflict-100" = none ∧
      (∃ d, d ∈ st'.conflicts ∧ d.conflict = c5Rec.conflict)) ∧
    (∃ st', GolfDB.resolveStoredConflict "conflict-100" ⟨Strategy.merge, []⟩ 500 c5St
        = Except.ok st') := by
  have h := resolveStoredConflict_clears_record "conflict-100" 500 c5St c5Rec c5Local
    c5Remote "course-1" "course-1" rfl rfl rfl rfl rfl (by decide)
  exact ⟨h.2.2.1, h.2.2.2.1, h.2.2.2.2⟩

/-- C5 counterexample: a stored Conflict Record whose local side is `null`
(a `server_only` pair, which `detectConflicts` produces and `storeConflict`
persists as-is).  Resolving it with `use_local` spreads `null` into an
object with no `id`, so the IndexedDB `put` throws `DataError`; the
exception propagates out of `resolveStoredConflict` before the
`delete('conflicts', conflictId)` line runs, so the record is NOT removed
from the `conflicts` store — the claim's unrestricted "removes that
Conflict Record" fails on this record. -/
theorem resolveStoredConflict_null_side_counterexample :
    findByKey StoredConflict.id c5BadSt.conflicts "conflict-7" = some c5BadRec ∧
    c5BadRec.conflict.clocal = none ∧
    GolfDB.resolveStoredConflict "conflict-7" ⟨Strategy.use_local, []⟩ 900 c5BadSt
      = Except.error DBError.DataError :=
  ⟨rfl, rfl, rfl⟩

/-- C9 (amended): exporting the three collections, clearing them, and
re-importing the export restores every collection exactly (so in
particular set-equal by id) — provided every stored entity passes the
validation of `importData` (truthy `id` and `name` for courses; truthy `id` and
`courseId` plus a numeric `totalScore` for rounds; truthy `id` and
`roundId` plus a numeric `score` for hole scores), every entity carries a
valid store key, and keys are unique per collection (the store's key
invariant). -/
theorem export_clear_import_round_trip (st : AppState)
    (hck : wellKeyed st.courses = true) (hcv : st.courses.all validCourse = true)
    (hcn : (st.courses.map entKey).Nodup)
    (hrk : wellKeyed st.rounds = true) (hrv : st.rounds.all validRound = true)
    (hrn : (st.rounds.map entKey).Nodup)
    (hhk : wellKeyed st.holeScores = true) (hhv : st.holeScores.all validHoleScore = true)
    (hhn : (st.holeScores.map entKey).Nodup) :
    roundTrip st = Except.ok st := by
  have hcc := clearStore_ok st.courses hck
  have hcr := clearStore_ok st.rounds hrk
  have hch := clearStore_ok st.holeScores hhk
  have hclear : clearAllData st = Except.ok (⟨[], [], []⟩ : AppState) := by
    unfold clearAllData
    rw [hcc, hcr, hch]
    rfl
  have hic : st.courses.foldlM GolfDB.put ([] : List Obj) = Except.ok st.courses := by
    have h := importFold_ok st.courses [] hck (by simpa using hcn)
    simpa using h
  have hir : st.rounds.foldlM GolfDB.put ([] : List Obj) = Except.ok st.rounds := by
    have h := importFold_ok st.rounds [] hrk (by simpa using hrn)
    simpa using h
  have hih : st.holeScores.foldlM GolfDB.put ([] : List Obj) = Except.ok st.holeScores := by
    have h := importFold_ok st.holeScores [] hhk (by simpa using hhn)
    simpa using h
  have himport : importData (exportData st) (⟨[], [], []⟩ : AppState) = Except.ok st := by
    unfold importData exportData
    rw [if_pos (by simp [hcv, hrv, hhv])]
    show (do
      let cs ← st.courses.foldlM GolfDB.put ([] : List Obj)
      let rs ← st.rounds.foldlM GolfDB.put ([] : List Obj)
      let hs ← st.holeScores.foldlM GolfDB.put ([] : List Obj)
      Except.ok (⟨cs, rs, hs⟩ : AppState)) = Except.ok st
    rw [hic, hir, hih]
    show Except.ok (⟨st.courses, st.rounds, st.holeScores⟩ : AppState) = Except.ok st
    cases st
    rfl
  unfold roundTrip
  rw [hclear]
  exact himport

/-- Witness for `export_clear_import_round_trip` on a fully valid concrete
state with one course, one round and one hole score. -/
theorem export_clear_import_round_trip_witness :
    roundTrip c9GoodSt = Except.ok c9GoodSt :=
  export_clear_import_round_trip c9GoodSt (by decide) (by decide) (by decide)
    (by decide) (by decide) (by decide) (by decide) (by decide) (by decide)

/-- C9 counterexample: a store holding one course with an empty `name`
(which the schema-free store accepts) — clearing succeeds, but re-import
rejects the whole backup with a validation error, so the collections are
left empty instead of restored, and the round trip fails. -/
theorem round_trip_validation_counterexample :
    roundTrip c9BadSt = Except.error DBError.ValidationError ∧
    c9BadSt.courses ≠ [] :=
  ⟨rfl, by decide⟩

/-- C10: `mergeData` defaults to the local entity — the merged entity
agrees with `local` on every field not named in the rule set; a `combine`
rule on a field where either side is not an array leaves the local value
unchanged; and a `latest` rule always takes the remote field value,
regardless of which side carries the newer timestamp.  Rule fields are
assumed distinct, as `mergeRules` is a JS object whose keys are unique. -/
theorem mergeData_defaults_to_local (l r : Obj) (rules : List (String × MergeRule))
    (f : String) (hnd : (rules.map Prod.fst).Nodup) :
    ((∀ p ∈ rules, p.1 ≠ f) → getField (GolfDB.mergeData l r rules) f = getField l f) ∧
    ((f, MergeRule.combine) ∈ rules → bothArrays l r f = false →
      getField (GolfDB.mergeData l r rules) f = getField l f) ∧
    ((f, MergeRule.latest) ∈ rules →
      getField (GolfDB.mergeData l r rules) f = getField r f) := by
  refine ⟨?_, ?_, ?_⟩
  · intro h
    unfold GolfDB.mergeData
    exact getField_mergeFold_ne l r f rules h l
  · intro hmem hna
    rcases List.append_of_mem hmem with ⟨a, b, rfl⟩
    have hnd' : (a.map Prod.fst ++ f :: b.map Prod.fst).Nodup := by
      simpa [List.map_append, List.map_cons] using hnd
    rcases List.nodup_append.mp hnd' with ⟨_, hfb, hdisj⟩
    have hb : ∀ p ∈ b, p.1 ≠ f := by
      intro p hp hc
      exact (List.nodup_cons.mp hfb).1 (hc ▸ List.mem_map_of_mem Prod.fst hp)
    have ha : ∀ p ∈ a, p.1 ≠ f := by
      intro p hp hc
      exact hdisj (List.mem_map_of_mem Prod.fst hp) (by simp [hc])
    unfold GolfDB.mergeData
    rw [List.foldl_append, List.foldl_cons]
    rw [getField_mergeFold_ne l r f b hb
      (GolfDB.mergeStep l r (List.foldl (GolfDB.mergeStep l r) l a) (f, MergeRule.combine))]
    rw [mergeStep_combine_not_arrays l r (List.foldl (GolfDB.mergeStep l r) l a) f hna]
    exact getField_mergeFold_ne l r f a ha l
  · intro hmem
    rcases List.append_of_mem hmem with ⟨a, b, rfl⟩
    have hnd' : (a.map Prod.fst ++ f :: b.map Prod.fst).Nodup := by
      simpa [List.map_append, List.map_cons] using hnd
    rcases List.nodup_append.mp hnd' with ⟨_, hfb, hdisj⟩
    have hb : ∀ p ∈ b, p.1 ≠ f := by
      intro p hp hc
      exact (List.nodup_cons.mp hfb).1 (hc ▸ List.mem_map_of_mem Prod.fst hp)
    unfold GolfDB.mergeData
    rw [List.foldl_append, List.foldl_cons]
    rw [getField_mergeFold_ne l r f b hb
      (GolfDB.mergeStep l r (List.foldl (GolfDB.mergeStep l r) l a) (f, MergeRule.latest))]
    exact getField_mergeStep_latest l r (List.foldl (GolfDB.mergeStep l r) l a) f

/-- Witness for `mergeData_defaults_to_local` on concrete entities: an
unruled field keeps the local value, a `combine` rule on a non-array
remote side keeps the local value, and a `latest` rule takes the remote
value. -/
theorem mergeData_defaults_to_local_witness :
    getField (GolfDB.mergeData c10Local c10Remote c10Rules) "a" = getField c10Local "a" ∧
    getField (GolfDB.mergeData c10Local c10Remote c10Rules) "tags"
      = getField c10Local "tags" ∧
    getField (GolfDB.mergeData c10Local c10Remote c10Rules) "b"
      = getField c10Remote "b" := by
  refine ⟨?_, ?_, ?_⟩
  · exact (mergeData_defaults_to_local c10Local c10Remote c10Rules "a" (by decide)).1
      (by decide)
  · exact (mergeData_defaults_to_local c10Local c10Remote c10Rules "tags" (by decide)).2.1
      (by decide) (by decide)
  · exact (mergeData_defaults_to_local c10Local c10Remote c10Rules "b" (by decide)).2.2
      (by decide)
